import Mathlib

/-!
Shallow embedding of the oran-hwmgr-plugin-test allocation engine and
reconciliation state machine (internal/service/hwmgr.go and
internal/controller/hardwaremanagement/nodepool_controller.go).

The nodelist configmap's two sections are modelled as `cmResources`
(catalog) and `cmAllocations` (ledger).  Go maps are modelled as
association lists: the list order of `cmResources.nodes` stands for the
(unspecified, randomized) iteration order a Go `range` over the map
presents.  Kubernetes API calls (secret/node CR creation and deletion,
configmap updates) are modelled by an environment `Env : ExtOp → Bool`
prescribing which external operation succeeds; a `false` result stands
for the call returning an error (for the configmap update, a conflict).
-/

namespace HwMgr

/-- BMC connection info of a node in the `resources` section. -/
structure cmBmcInfo where
  address : String
  usernameBase64 : String
  passwordBase64 : String
deriving DecidableEq, Repr

/-- One node entry of the `resources` section of the nodelist configmap. -/
structure cmNodeInfo where
  hwProfile : String
  bmc : cmBmcInfo
  bootMACAddress : String
  hostname : String
deriving DecidableEq, Repr

/-- The `resources` section: hardware profile names and the node catalog.
The `nodes` association list presents the Go map in one iteration order. -/
structure cmResources where
  hwProfiles : List String
  nodes : List (String × cmNodeInfo)
deriving DecidableEq, Repr

/-- One ledger entry: the nodes allocated to one cloudID, per group name. -/
structure cmAllocatedCloud where
  cloudID : String
  nodegroups : List (String × List String)
deriving DecidableEq, Repr

/-- The `allocations` section of the nodelist configmap: the ledger. -/
structure cmAllocations where
  clouds : List cmAllocatedCloud
deriving DecidableEq, Repr

/-- One entry of `NodePool.Spec.NodeGroup`. -/
structure NodeGroup where
  name : String
  hwProfile : String
  size : Int
deriving DecidableEq, Repr

/-- The part of a NodePool spec the service consumes. -/
structure NodePoolSpec where
  cloudID : String
  nodeGroup : List NodeGroup
deriving DecidableEq, Repr

/-- All node names recorded in one cloud entry (concatenation of its groups). -/
def flatGroups : List (String × List String) → List String
  | [] => []
  | g :: rest => g.2 ++ flatGroups rest

/-- All node names recorded anywhere in a clouds list: the `inuse` set that
`getFreeNodesInProfile` builds from the ledger. -/
def allocatedNamesL : List cmAllocatedCloud → List String
  | [] => []
  | c :: rest => flatGroups c.nodegroups ++ allocatedNamesL rest

/-- All node names recorded anywhere in the ledger. -/
def allocatedNames (a : cmAllocations) : List String :=
  allocatedNamesL a.clouds

/-- The scan over the node catalog inside `getFreeNodesInProfile`: keep, in
presentation order, the names whose profile matches and that are not in use. -/
def freeScan (inuse : List String) (profname : String) :
    List (String × cmNodeInfo) → List String
  | [] => []
  | (nodename, node) :: rest =>
    if node.hwProfile != profname then freeScan inuse profname rest
    else if inuse.contains nodename then freeScan inuse profname rest
    else nodename :: freeScan inuse profname rest

/-- `getFreeNodesInProfile` from hwmgr.go: the catalog nodes of the given
profile whose names appear in no group of no cloud of the ledger. -/
def getFreeNodesInProfile (resources : cmResources) (allocations : cmAllocations)
    (profname : String) : List String :=
  freeScan (allocatedNames allocations) profname resources.nodes

/-- The per-group feasibility loop of `CreateNodePool`/`ProcessNewNodePool`:
error on the first group whose size exceeds its free node count. -/
def checkGroups (resources : cmResources) (allocations : cmAllocations) :
    List NodeGroup → Except String Unit
  | [] => .ok ()
  | g :: rest =>
    if Int.ofNat (getFreeNodesInProfile resources allocations g.hwProfile).length < g.size
    then .error ("not enough free resources in group " ++ g.hwProfile)
    else checkGroups resources allocations rest

/-- `CreateNodePool` (named `ProcessNewNodePool` in the earlier revision):
the admission-time feasibility check; performs no mutation. -/
def createNodePool (resources : cmResources) (allocations : cmAllocations)
    (np : NodePoolSpec) : Except String Unit :=
  checkGroups resources allocations np.nodeGroup

/-- The cloud-lookup loop of `AllocateNode`/`IsNodeFullyAllocated`/
`GetAllocatedNodes`/`ReleaseNodePool`: first entry with the given cloudID. -/
def findCloud (clouds : List cmAllocatedCloud) (cloudID : String) :
    Option cmAllocatedCloud :=
  clouds.find? (fun c => c.cloudID == cloudID)

/-- Whether some ledger entry carries the given cloudID. -/
def hasCloud (clouds : List cmAllocatedCloud) (cloudID : String) : Bool :=
  clouds.any (fun c => c.cloudID == cloudID)

/-- `AllocateNode`'s lazy entry creation: append an empty entry for the
cloudID when no entry exists yet. -/
def ensureCloud (a : cmAllocations) (cloudID : String) : cmAllocations :=
  if hasCloud a.clouds cloudID then a else ⟨a.clouds ++ [⟨cloudID, []⟩]⟩

/-- Go map read `cloud.Nodegroups[name]`: the group's node list, `[]` when
the key is absent. -/
def lookupGroup (ngs : List (String × List String)) (name : String) : List String :=
  match ngs.find? (fun g => g.1 == name) with
  | some g => g.2
  | none => []

/-- Go map write `cloud.Nodegroups[name] = v`: replace the first entry with
that key, or append a new one. -/
def setGroup : List (String × List String) → String → List String →
    List (String × List String)
  | [], name, v => [(name, v)]
  | g :: rest, name, v =>
    if g.1 == name then (name, v) :: rest else g :: setGroup rest name v

/-- In-place mutation through the `cloud` pointer in `AllocateNode`: rewrite
one group list of the first ledger entry carrying the cloudID. -/
def updateCloudGroups : List cmAllocatedCloud → String → String → List String →
    List cmAllocatedCloud
  | [], _, _, _ => []
  | c :: rest, cloudID, gname, v =>
    if c.cloudID == cloudID then ⟨c.cloudID, setGroup c.nodegroups gname v⟩ :: rest
    else c :: updateCloudGroups rest cloudID gname v

/-- The nodegroups of the first ledger entry for the cloudID (`[]` if none). -/
def cloudGroups (a : cmAllocations) (cloudID : String) : List (String × List String) :=
  match findCloud a.clouds cloudID with
  | some c => c.nodegroups
  | none => []

/-- `resources.Nodes[nodename]`: first catalog entry with that name. -/
def lookupNode (nodes : List (String × cmNodeInfo)) (name : String) :
    Option cmNodeInfo :=
  match nodes.find? (fun p => p.1 == name) with
  | some p => some p.2
  | none => none

/-- The external (Kubernetes API) operations the service performs besides
reading the configmap. -/
inductive ExtOp where
  | createBMCSecret (nodename : String)
  | updateConfigMap (alloc : cmAllocations)
  | createNode (cloudID nodename groupname hwprofile : String)
  | updateNodeStatus (nodename : String)
  | deleteBMCSecret (nodename : String)
  | deleteNode (nodename : String)
deriving DecidableEq

/-- An environment decides which external operation succeeds.  `false` on
`updateConfigMap` stands for the optimistic-concurrency update failing
(e.g. a version conflict). -/
abbrev Env := ExtOp → Bool

/-- Outcome of one `AllocateNode` invocation: the returned error (if any),
the successive allocation sections successfully written to the configmap,
and how many configmap update calls were attempted. -/
structure AllocResult where
  res : Except String Unit
  writes : List cmAllocations
  attempts : Nat
deriving Repr

/-- The nodegroup loop of `AllocateNode`.  `mem` is the in-memory
`allocations` value (aliased by the `cloud` pointer in the Go code); each
appended node is immediately followed by one configmap update attempt.
The `[]` branch of the free-node match is unreachable: it is taken only
when `remaining ≥ 1` and the length guard passed, forcing a nonempty list. -/
def allocateNodeGroups (env : Env) (resources : cmResources) (cloudID : String) :
    List NodeGroup → cmAllocations → AllocResult
  | [], _ => ⟨.ok (), [], 0⟩
  | g :: rest, mem =>
    let used := lookupGroup (cloudGroups mem cloudID) g.name
    let remaining : Int := g.size - used.length
    if remaining ≤ 0 then
      allocateNodeGroups env resources cloudID rest mem
    else
      let freenodes := getFreeNodesInProfile resources mem g.hwProfile
      if Int.ofNat freenodes.length < remaining then
        ⟨.error ("not enough free resources remaining in group " ++ g.hwProfile), [], 0⟩
      else
        match freenodes with
        | [] =>
          ⟨.error ("not enough free resources remaining in group " ++ g.hwProfile), [], 0⟩
        | nodename :: _ =>
          match lookupNode resources.nodes nodename with
          | none => ⟨.error ("unable to find nodeinfo for " ++ nodename), [], 0⟩
          | some _nodeinfo =>
            if env (.createBMCSecret nodename) = false then
              ⟨.error ("failed to create bmc-secret when allocating node " ++ nodename), [], 0⟩
            else
              let mem' : cmAllocations :=
                ⟨updateCloudGroups mem.clouds cloudID g.name (used ++ [nodename])⟩
              if env (.updateConfigMap mem') = false then
                ⟨.error "failed to update configmap", [], 1⟩
              else if env (.createNode cloudID nodename g.name g.hwProfile) = false then
                ⟨.error ("failed to create allocated node (" ++ nodename ++ ")"), [mem'], 1⟩
              else if env (.updateNodeStatus nodename) = false then
                ⟨.error ("failed to update node status (" ++ nodename ++ ")"), [mem'], 1⟩
              else
                let r := allocateNodeGroups env resources cloudID rest mem'
                ⟨r.res, mem' :: r.writes, r.attempts + 1⟩

/-- `AllocateNode` from hwmgr.go: find-or-create the cloud entry, then run
the per-nodegroup allocation loop. -/
def allocateNode (env : Env) (resources : cmResources) (np : NodePoolSpec)
    (a : cmAllocations) : AllocResult :=
  allocateNodeGroups env resources np.cloudID np.nodeGroup (ensureCloud a np.cloudID)

/-- The allocation section stored in the configmap after one `AllocateNode`
invocation: the last successful write, or the original when none happened. -/
def allocPersisted (env : Env) (resources : cmResources) (np : NodePoolSpec)
    (a : cmAllocations) : cmAllocations :=
  (allocateNode env resources np a).writes.getLastD a

/-- The inner deletion loop of `ReleaseNodePool` over one group's node list:
delete each node's bmc-secret and Node CR, stopping at the first failure. -/
def deleteNodesList (env : Env) : List String → Except String Unit
  | [] => .ok ()
  | nodename :: rest =>
    if env (.deleteBMCSecret nodename) = false then
      .error ("failed to delete bmc-secret for " ++ nodename)
    else if env (.deleteNode nodename) = false then
      .error ("failed to delete node " ++ nodename)
    else deleteNodesList env rest

/-- The outer deletion loop of `ReleaseNodePool` over the cloud entry's
nodegroups. -/
def deleteGroupsNodes (env : Env) : List (String × List String) → Except String Unit
  | [] => .ok ()
  | g :: rest =>
    match deleteNodesList env g.2 with
    | .error e => .error e
    | .ok () => deleteGroupsNodes env rest

/-- `slices.Delete` at the index found by the cloud-lookup loop: drop the
first ledger entry carrying the cloudID. -/
def eraseFirstCloud : List cmAllocatedCloud → String → List cmAllocatedCloud
  | [], _ => []
  | c :: rest, cloudID =>
    if c.cloudID == cloudID then rest else c :: eraseFirstCloud rest cloudID

/-- Outcome of one `ReleaseNodePool` invocation: the returned error (if any)
and the allocation section stored in the configmap afterwards. -/
structure ReleaseResult where
  res : Except String Unit
  persisted : cmAllocations
deriving Repr

/-- `ReleaseNodePool` from hwmgr.go: no-op when the cloudID has no ledger
entry; otherwise tear down every recorded node's external objects, remove
the entry wholesale, and write the ledger back. -/
def releaseNodePool (env : Env) (cloudID : String) (a : cmAllocations) :
    ReleaseResult :=
  match findCloud a.clouds cloudID with
  | none => ⟨.ok (), a⟩
  | some cloud =>
    match deleteGroupsNodes env cloud.nodegroups with
    | .error e => ⟨.error e, a⟩
    | .ok () =>
      let a' : cmAllocations := ⟨eraseFirstCloud a.clouds cloudID⟩
      if env (.updateConfigMap a') = false then ⟨.error "failed to update configmap", a⟩
      else ⟨.ok (), a'⟩

/-- The group-gathering loop of `GetAllocatedNodes` over the request's own
spec node groups. -/
def gatherAllocated (ngs : List (String × List String)) : List NodeGroup → List String
  | [] => []
  | g :: rest => lookupGroup ngs g.name ++ gatherAllocated ngs rest

/-- `GetAllocatedNodes` from hwmgr.go: empty when the cloudID has no ledger
entry; otherwise the names recorded under the request's spec node groups,
sorted ascending (`slices.Sort`). -/
def getAllocatedNodes (a : cmAllocations) (np : NodePoolSpec) : List String :=
  match findCloud a.clouds np.cloudID with
  | none => []
  | some cloud =>
    List.insertionSort (fun x y : String => x ≤ y)
      (gatherAllocated cloud.nodegroups np.nodeGroup)

/-- One reconciliation-relevant mutation of the persisted ledger: an
`AllocateNode` invocation for some NodePool, or a `ReleaseNodePool`. -/
inductive Step where
  | alloc (np : NodePoolSpec)
  | release (cloudID : String)

/-- The persisted allocation section after one step. -/
def runStep (env : Env) (resources : cmResources) (a : cmAllocations) :
    Step → cmAllocations
  | .alloc np => allocPersisted env resources np a
  | .release cloudID => (releaseNodePool env cloudID a).persisted

/-- The persisted allocation section after a sequence of steps. -/
def runSteps (env : Env) (resources : cmResources) :
    List Step → cmAllocations → cmAllocations
  | [], a => a
  | s :: rest, a => runSteps env resources rest (runStep env resources a s)

/-- A sequence of `AllocateNode` invocations, threading the persisted ledger. -/
def runAllocs (env : Env) (resources : cmResources) :
    List NodePoolSpec → cmAllocations → cmAllocations
  | [], a => a
  | np :: rest, a => runAllocs env resources rest (allocPersisted env resources np a)

/-- A `metav1.Condition` as the controller consumes and produces it. -/
structure Condition where
  ctype : String
  status : String
  reason : String
  message : String
deriving DecidableEq, Repr

/-- `meta.FindStatusCondition`: first condition of the given type. -/
def findStatusCondition (conds : List Condition) (t : String) : Option Condition :=
  conds.find? (fun c => c.ctype == t)

/-- The controller's state classification (`NodePoolFSMAction`). -/
inductive NodePoolFSMAction where
  | create
  | processing
  | noop
deriving DecidableEq, Repr

/-- `determineAction` from nodepool_controller.go: Create when the status
has no conditions at all; otherwise look up the Provisioned condition:
True means Noop, present-but-not-True means Processing, absent means Noop. -/
def determineAction (conds : List Condition) : NodePoolFSMAction :=
  if conds.length = 0 then .create
  else
    match findStatusCondition conds "Provisioned" with
    | some c => if c.status = "True" then .noop else .processing
    | none => .noop

/-- Modelled from the spec: `utils.SetStatusCondition` (the
internal/controller/utils package is not part of the provided sources).
Per the spec's status contract there is a single condition of each type:
replace the first condition of the given type, or append a new one.
Argument order follows the call sites: type, reason, status, message. -/
def setStatusCondition : List Condition → String → String → String → String →
    List Condition
  | [], ctype, reason, status, message => [⟨ctype, status, reason, message⟩]
  | c :: rest, ctype, reason, status, message =>
    if c.ctype == ctype then ⟨ctype, status, reason, message⟩ :: rest
    else c :: setStatusCondition rest ctype reason status message

/-- `handleNodePoolCreate` from nodepool_controller.go, with the status
write-back assumed to succeed: run the feasibility check, set the
Provisioned condition to Failed (carrying the error) or InProgress, and do
not requeue (the Bool is the requeue flag of the returned result). -/
def handleNodePoolCreate (resources : cmResources) (allocations : cmAllocations)
    (np : NodePoolSpec) (conds : List Condition) : List Condition × Bool :=
  match createNodePool resources allocations np with
  | .error e =>
    (setStatusCondition conds "Provisioned" "Failed" "False"
      ("Creation request failed: " ++ e), false)
  | .ok _ =>
    (setStatusCondition conds "Provisioned" "InProgress" "False"
      "Handling creation", false)

/-- The environment in which every external operation succeeds. -/
def envAllOk : Env := fun _ => true

/-- The environment in which configmap updates fail (a lasting version
conflict) while every other external operation succeeds. -/
def envConflict : Env := fun op =>
  match op with
  | .updateConfigMap _ => false
  | _ => true

/-- How many nodegroup entries of one cloud record the node name. -/
def groupCount : List (String × List String) → String → Nat
  | [], _ => 0
  | g :: rest, n => (if g.2.contains n then 1 else 0) + groupCount rest n

/-- How many (cloudID, group) pairs across the clouds list record the name. -/
def pairsCount : List cmAllocatedCloud → String → Nat
  | [], _ => 0
  | c :: rest, n => groupCount c.nodegroups n + pairsCount rest n

/-- How many (cloudID, group) pairs of the ledger record the node name. -/
def pairsWithNode (a : cmAllocations) (n : String) : Nat :=
  pairsCount a.clouds n

/-- The central ledger invariant: every recorded node name appears in at
most one (cloudID, group) pair across the entire ledger. -/
def atMostOneGroup (a : cmAllocations) : Prop :=
  ∀ n ∈ allocatedNames a, pairsWithNode a n ≤ 1

instance (a : cmAllocations) : Decidable (atMostOneGroup a) := by
  unfold atMostOneGroup
  exact List.decidableBAll _ _

/-! ### Basic lemmas about the ledger bookkeeping -/

theorem groupCount_eq_zero {ngs : List (String × List String)} {n : String}
    (h : n ∉ flatGroups ngs) : groupCount ngs n = 0 := by
  induction ngs with
  | nil => rfl
  | cons g rest ih =>
    simp only [flatGroups, List.mem_append] at h
    push_neg at h
    simp only [groupCount]
    rw [ih h.2]
    simp [h.1]

theorem pairsCount_eq_zero {clouds : List cmAllocatedCloud} {n : String}
    (h : n ∉ allocatedNamesL clouds) : pairsCount clouds n = 0 := by
  induction clouds with
  | nil => rfl
  | cons c rest ih =>
    simp only [allocatedNamesL, List.mem_append] at h
    push_neg at h
    simp only [pairsCount]
    rw [groupCount_eq_zero h.1, ih h.2]

theorem freeScan_not_inuse {inuse : List String} {p : String}
    {nodes : List (String × cmNodeInfo)} {n : String}
    (h : n ∈ freeScan inuse p nodes) : n ∉ inuse := by
  induction nodes with
  | nil => simp [freeScan] at h
  | cons q rest ih =>
    obtain ⟨name, info⟩ := q
    simp only [freeScan] at h
    split at h
    · exact ih h
    · split at h
      · exact ih h
      · rcases List.mem_cons.mp h with h1 | h1
        · subst h1
          rename_i hc
          intro hmem
          simp [hmem] at hc
        · exact ih h1

theorem freeScan_lookup {inuse : List String} {p : String}
    {nodes : List (String × cmNodeInfo)} {n : String}
    (h : n ∈ freeScan inuse p nodes) : (lookupNode nodes n).isSome := by
  induction nodes with
  | nil => simp [freeScan] at h
  | cons q rest ih =>
    obtain ⟨name, info⟩ := q
    simp only [lookupNode, List.find?]
    by_cases hb : name == n
    · simp [hb]
    · simp only [freeScan] at h
      have hrest : n ∈ freeScan inuse p rest := by
        split at h
        · exact h
        · split at h
          · exact h
          · rcases List.mem_cons.mp h with h1 | h1
            · subst h1; simp at hb
            · exact h1
      have := ih hrest
      simp only [lookupNode] at this
      simp only [Bool.not_eq_true] at hb
      rw [hb]
      exact this

theorem mem_freeNodes_not_allocated {r : cmResources} {a : cmAllocations}
    {p m : String} (h : m ∈ getFreeNodesInProfile r a p) :
    m ∉ allocatedNames a :=
  freeScan_not_inuse h

theorem contains_eq_true {l : List String} {a : String} (h : a ∈ l) :
    l.contains a = true :=
  List.elem_iff.mpr h

theorem contains_eq_false {l : List String} {a : String} (h : a ∉ l) :
    l.contains a = false := by
  rw [Bool.eq_false_iff]
  intro hc
  exact h (List.elem_iff.mp hc)

theorem contains_append_single {l : List String} {n m : String} (hne : n ≠ m) :
    (l ++ [m]).contains n = l.contains n := by
  cases hc : l.contains n with
  | true => exact contains_eq_true (List.mem_append_left _ (List.elem_iff.mp hc))
  | false =>
    refine contains_eq_false ?_
    intro hmem
    rcases List.mem_append.mp hmem with h1 | h1
    · rw [contains_eq_true h1] at hc
      exact Bool.true_eq_false.mp hc
    · exact hne (List.mem_singleton.mp h1)

theorem groupCount_setGroup_ne {gname m : String} (n : String) (hne : n ≠ m) :
    ∀ ngs : List (String × List String),
    groupCount (setGroup ngs gname (lookupGroup ngs gname ++ [m])) n
      = groupCount ngs n := by
  intro ngs
  induction ngs with
  | nil =>
    have h1 : ([] ++ [m] : List String).contains n = false :=
      contains_eq_false (by simp [hne])
    simp [setGroup, lookupGroup, List.find?, groupCount, h1, hne]
  | cons g rest ih =>
    obtain ⟨k, l⟩ := g
    cases hk : (k == gname) with
    | true =>
      have hk' : k = gname := by simpa using hk
      subst hk'
      simp only [setGroup, lookupGroup, List.find?, hk, groupCount]
      rw [contains_append_single hne]
    | false =>
      have hl : lookupGroup ((k, l) :: rest) gname = lookupGroup rest gname := by
        simp only [lookupGroup, List.find?, hk]
      simp only [setGroup, hk, Bool.false_eq_true, if_false, groupCount, hl]
      rw [ih]

theorem groupCount_setGroup_fresh {gname m : String} {v : List String}
    (hv : m ∈ v) :
    ∀ ngs : List (String × List String), m ∉ flatGroups ngs →
    groupCount (setGroup ngs gname v) m = 1 := by
  intro ngs
  induction ngs with
  | nil =>
    intro _
    simp [setGroup, groupCount, contains_eq_true hv, hv]
  | cons g rest ih =>
    intro hm
    obtain ⟨k, l⟩ := g
    simp only [flatGroups, List.mem_append] at hm
    push_neg at hm
    cases hk : (k == gname) with
    | true =>
      simp only [setGroup, hk, if_true, groupCount]
      rw [groupCount_eq_zero hm.2]
      simp [contains_eq_true hv, hv]
    | false =>
      simp only [setGroup, hk, Bool.false_eq_true, if_false, groupCount]
      rw [ih hm.2, contains_eq_false hm.1]
      simp

theorem cloudGroups_cons_match {c : cmAllocatedCloud} {rest : List cmAllocatedCloud}
    {cid : String} (h : (c.cloudID == cid) = true) :
    cloudGroups ⟨c :: rest⟩ cid = c.nodegroups := by
  simp only [cloudGroups, findCloud, List.find?, h]

theorem cloudGroups_cons_nomatch {c : cmAllocatedCloud} {rest : List cmAllocatedCloud}
    {cid : String} (h : (c.cloudID == cid) = false) :
    cloudGroups ⟨c :: rest⟩ cid = cloudGroups ⟨rest⟩ cid := by
  simp only [cloudGroups, findCloud, List.find?, h]

theorem pairsCount_update_ne {cid gname m : String} (n : String) (hne : n ≠ m) :
    ∀ clouds : List cmAllocatedCloud,
    pairsCount (updateCloudGroups clouds cid gname
        (lookupGroup (cloudGroups ⟨clouds⟩ cid) gname ++ [m])) n
      = pairsCount clouds n := by
  intro clouds
  induction clouds with
  | nil => rfl
  | cons c rest ih =>
    cases hc : (c.cloudID == cid) with
    | true =>
      rw [cloudGroups_cons_match hc]
      simp only [updateCloudGroups, hc, if_true, pairsCount]
      rw [groupCount_setGroup_ne n hne]
    | false =>
      rw [cloudGroups_cons_nomatch hc]
      simp only [updateCloudGroups, hc, Bool.false_eq_true, if_false, pairsCount]
      rw [ih]

theorem pairsCount_update_fresh {cid gname m : String} {v : List String}
    (hv : m ∈ v) :
    ∀ clouds : List cmAllocatedCloud, m ∉ allocatedNamesL clouds →
    hasCloud clouds cid = true →
    pairsCount (updateCloudGroups clouds cid gname v) m = 1 := by
  intro clouds
  induction clouds with
  | nil =>
    intro _ hc
    simp [hasCloud] at hc
  | cons c rest ih =>
    intro hm hc
    simp only [allocatedNamesL, List.mem_append] at hm
    push_neg at hm
    cases hcc : (c.cloudID == cid) with
    | true =>
      simp only [updateCloudGroups, hcc, if_true, pairsCount]
      rw [groupCount_setGroup_fresh hv c.nodegroups hm.1, pairsCount_eq_zero hm.2]
    | false =>
      have hc' : hasCloud rest cid = true := by
        simp only [hasCloud, List.any_cons, hcc, Bool.false_or] at hc ⊢
        exact hc
      simp only [updateCloudGroups, hcc, Bool.false_eq_true, if_false, pairsCount]
      rw [ih hm.2 hc', groupCount_eq_zero hm.1]

theorem hasCloud_update {cid gname : String} {v : List String} (cid' : String) :
    ∀ clouds : List cmAllocatedCloud,
    hasCloud (updateCloudGroups clouds cid gname v) cid' = hasCloud clouds cid' := by
  intro clouds
  induction clouds with
  | nil => rfl
  | cons c rest ih =>
    cases hcc : (c.cloudID == cid) with
    | true =>
      simp only [updateCloudGroups, hcc, if_true, hasCloud, List.any_cons]
    | false =>
      simp only [updateCloudGroups, hcc, Bool.false_eq_true, if_false, hasCloud,
        List.any_cons]
      simp only [hasCloud] at ih
      rw [ih]

theorem pairsCount_append_empty (clouds : List cmAllocatedCloud) (cid n : String) :
    pairsCount (clouds ++ [⟨cid, []⟩]) n = pairsCount clouds n := by
  induction clouds with
  | nil => simp [pairsCount, groupCount]
  | cons c rest ih =>
    simp only [List.cons_append, pairsCount]
    exact congrArg (groupCount c.nodegroups n + .) ih

theorem allocatedNamesL_append_empty (clouds : List cmAllocatedCloud) (cid : String) :
    allocatedNamesL (clouds ++ [⟨cid, []⟩]) = allocatedNamesL clouds := by
  induction clouds with
  | nil => simp [allocatedNamesL, flatGroups]
  | cons c rest ih =>
    simp only [List.cons_append, allocatedNamesL]
    exact congrArg (flatGroups c.nodegroups ++ .) ih

theorem pairsWithNode_ensure (a : cmAllocations) (cid n : String) :
    pairsWithNode (ensureCloud a cid) n = pairsWithNode a n := by
  unfold ensureCloud
  split
  · rfl
  · exact pairsCount_append_empty a.clouds cid n

theorem allocatedNames_ensure (a : cmAllocations) (cid : String) :
    allocatedNames (ensureCloud a cid) = allocatedNames a := by
  unfold ensureCloud
  split
  · rfl
  · exact allocatedNamesL_append_empty a.clouds cid

theorem hasCloud_ensure (a : cmAllocations) (cid : String) :
    hasCloud (ensureCloud a cid).clouds cid = true := by
  unfold ensureCloud
  split
  · assumption
  · simp [hasCloud]

/-- Unbounded form of the ledger invariant, convenient for induction. -/
def ledgerInv (a : cmAllocations) : Prop :=
  ∀ n, pairsWithNode a n ≤ 1

theorem ledgerInv_of_atMostOneGroup {a : cmAllocations} (h : atMostOneGroup a) :
    ledgerInv a := by
  intro n
  by_cases hn : n ∈ allocatedNames a
  · exact h n hn
  · rw [show pairsWithNode a n = pairsCount a.clouds n from rfl,
      pairsCount_eq_zero hn]
    exact Nat.zero_le 1

theorem ledgerInv_ensure {a : cmAllocations} {cid : String} (h : ledgerInv a) :
    ledgerInv (ensureCloud a cid) := by
  intro n
  rw [pairsWithNode_ensure]
  exact h n

theorem ledgerInv_update {mem : cmAllocations} {cid gname m : String}
    (h : ledgerInv mem) (hm : m ∉ allocatedNames mem)
    (hc : hasCloud mem.clouds cid = true) :
    ledgerInv ⟨updateCloudGroups mem.clouds cid gname
      (lookupGroup (cloudGroups mem cid) gname ++ [m])⟩ := by
  intro n
  by_cases hn : n = m
  · subst hn
    have h1 := @pairsCount_update_fresh cid gname n
      (lookupGroup (cloudGroups mem cid) gname ++ [n])
      (List.mem_append_right _ (List.mem_singleton.mpr rfl))
      mem.clouds hm hc
    rw [show pairsWithNode ⟨updateCloudGroups mem.clouds cid gname
      (lookupGroup (cloudGroups mem cid) gname ++ [n])⟩ n
        = pairsCount (updateCloudGroups mem.clouds cid gname
          (lookupGroup (cloudGroups mem cid) gname ++ [n])) n from rfl, h1]
  · have h1 := @pairsCount_update_ne cid gname m n hn mem.clouds
    rw [show pairsWithNode ⟨updateCloudGroups mem.clouds cid gname
      (lookupGroup (cloudGroups mem cid) gname ++ [m])⟩ n
        = pairsCount (updateCloudGroups mem.clouds cid gname
          (lookupGroup (cloudGroups mem cid) gname ++ [m])) n from rfl, h1]
    exact h n

theorem allocGroups_writes_inv (env : Env) (r : cmResources) (cid : String) :
    ∀ (groups : List NodeGroup) (mem : cmAllocations),
    ledgerInv mem → hasCloud mem.clouds cid = true →
    ∀ w ∈ (allocateNodeGroups env r cid groups mem).writes, ledgerInv w := by
  intro groups
  induction groups with
  | nil =>
    intro mem _ _ w hw
    simp [allocateNodeGroups] at hw
  | cons g rest ih =>
    intro mem hInv hc w hw
    simp only [allocateNodeGroups] at hw
    split at hw
    · exact ih mem hInv hc w hw
    · split at hw
      · simp at hw
      · split at hw
        · simp at hw
        · rename_i nodename tail hfree
          split at hw
          · simp at hw
          · split at hw
            · simp at hw
            · have hmem : nodename ∈ getFreeNodesInProfile r mem g.hwProfile := by
                rw [hfree]; exact List.mem_cons_self _ _
              have hfreshm : nodename ∉ allocatedNames mem :=
                mem_freeNodes_not_allocated hmem
              have hInv' : ledgerInv ⟨updateCloudGroups mem.clouds cid g.name
                  (lookupGroup (cloudGroups mem cid) g.name ++ [nodename])⟩ :=
                ledgerInv_update hInv hfreshm hc
              have hc' : hasCloud (updateCloudGroups mem.clouds cid g.name
                  (lookupGroup (cloudGroups mem cid) g.name ++ [nodename])) cid = true := by
                rw [hasCloud_update cid mem.clouds]
                exact hc
              split at hw
              · simp at hw
              · split at hw
                · rcases List.mem_singleton.mp hw with rfl
                  exact hInv'
                · split at hw
                  · rcases List.mem_singleton.mp hw with rfl
                    exact hInv'
                  · rcases List.mem_cons.mp hw with rfl | hw'
                    · exact hInv'
                    · exact ih _ hInv' hc' w hw'

theorem ledgerInv_allocPersisted {env : Env} {r : cmResources}
    {np : NodePoolSpec} {a : cmAllocations} (h : ledgerInv a) :
    ledgerInv (allocPersisted env r np a) := by
  have hmem : (allocateNode env r np a).writes.getLastD a
      ∈ a :: (allocateNode env r np a).writes :=
    List.getLastD_mem_cons _ _
  rcases List.mem_cons.mp hmem with he | hw
  · rw [allocPersisted, he]
    exact h
  · rw [allocPersisted]
    rw [show (allocateNode env r np a).writes.getLastD a = _ from rfl]
    refine allocGroups_writes_inv env r np.cloudID np.nodeGroup
      (ensureCloud a np.cloudID) (ledgerInv_ensure h)
      (hasCloud_ensure a np.cloudID) _ ?_
    exact hw

theorem pairsCount_erase_le (cid n : String) :
    ∀ clouds : List cmAllocatedCloud,
    pairsCount (eraseFirstCloud clouds cid) n ≤ pairsCount clouds n := by
  intro clouds
  induction clouds with
  | nil => exact Nat.le_refl 0
  | cons c rest ih =>
    cases hcc : (c.cloudID == cid) with
    | true =>
      simp only [eraseFirstCloud, hcc, if_true, pairsCount]
      exact Nat.le_add_left _ _
    | false =>
      simp only [eraseFirstCloud, hcc, Bool.false_eq_true, if_false, pairsCount]
      exact Nat.add_le_add_left ih _

theorem ledgerInv_release {env : Env} {cid : String} {a : cmAllocations}
    (h : ledgerInv a) : ledgerInv (releaseNodePool env cid a).persisted := by
  unfold releaseNodePool
  split
  · exact h
  · split
    · exact h
    · dsimp only
      split
      · exact h
      · intro n
        exact Nat.le_trans (pairsCount_erase_le cid n a.clouds) (h n)

theorem ledgerInv_runStep {env : Env} {r : cmResources} {a : cmAllocations}
    {s : Step} (h : ledgerInv a) : ledgerInv (runStep env r a s) := by
  cases s with
  | alloc np => exact ledgerInv_allocPersisted h
  | release cid => exact ledgerInv_release h

theorem ledgerInv_runSteps {env : Env} {r : cmResources} :
    ∀ (steps : List Step) (a : cmAllocations), ledgerInv a →
    ledgerInv (runSteps env r steps a) := by
  intro steps
  induction steps with
  | nil => intro a h; exact h
  | cons s rest ih =>
    intro a h
    exact ih _ (ledgerInv_runStep h)

/-! ### Concrete fixtures used by witnesses and counterexamples -/

/-- A catalog node entry with the given profile and BMC address. -/
def infoOf (p : String) (addr : String) : cmNodeInfo :=
  ⟨p, ⟨addr, "YWRtaW4=", "bXlwYXNz"⟩, "c6:b6:13:a0:01:00", "host.localhost"⟩

/-- Catalog with two nodes of profile P. -/
def rTwoP : cmResources :=
  ⟨["P"], [("n0", infoOf "P" "a0"), ("n1", infoOf "P" "a1")]⟩

/-- Catalog with a single node of profile P. -/
def rOneP : cmResources := ⟨["P"], [("n0", infoOf "P" "a0")]⟩

/-- Catalog with one node of profile P and one of profile Q. -/
def rPQ : cmResources :=
  ⟨["P", "Q"], [("p0", infoOf "P" "a0"), ("q0", infoOf "Q" "a1")]⟩

/-- The same two-node catalog map presented in two iteration orders. -/
def catA : cmResources :=
  ⟨["P"], [("nodeA", infoOf "P" "a0"), ("nodeB", infoOf "P" "a1")]⟩

/-- Second presentation order of the `catA` catalog map. -/
def catB : cmResources :=
  ⟨["P"], [("nodeB", infoOf "P" "a1"), ("nodeA", infoOf "P" "a0")]⟩

/-- NodePool requesting one group of two P nodes. -/
def npMaster2 : NodePoolSpec := ⟨"cloud1", [⟨"master", "P", 2⟩]⟩

/-- NodePool with two groups both of profile P, sizes 2 and 1. -/
def npSum : NodePoolSpec := ⟨"cloud1", [⟨"g1", "P", 2⟩, ⟨"g2", "P", 1⟩]⟩

/-- NodePool with two groups of distinct profiles P and Q, size 1 each. -/
def npPQ : NodePoolSpec := ⟨"c", [⟨"gA", "P", 1⟩, ⟨"gB", "Q", 1⟩]⟩

/-- NodePool with a single size-1 group of profile P. -/
def npOneG : NodePoolSpec := ⟨"cloud1", [⟨"g", "P", 1⟩]⟩

/-- NodePool for cloud c with a single size-1 group of profile P. -/
def npC1 : NodePoolSpec := ⟨"c", [⟨"g", "P", 1⟩]⟩

/-- A ledger holding an allocation of node x to another cloud. -/
def aOther : cmAllocations := ⟨[⟨"other", [("g", ["x"])]⟩]⟩

/-- A step sequence mixing allocations and a release. -/
def stepsW : List Step :=
  [Step.alloc npMaster2, Step.alloc npMaster2, Step.alloc npPQ,
   Step.release "cloud1"]

/-! ### C1 -/

/-- C1: starting from any ledger in which each node name appears in at most
one (cloudID, group) pair, any sequence of `AllocateNode` and
`ReleaseNodePool` steps — under any environment, hence under any pattern of
partial external failures — leaves every node name in at most one
(cloudID, group) pair; moreover a free node computed by the set-subtraction
of `getFreeNodesInProfile` is never already allocated. -/
theorem no_double_allocation (env : Env) (r : cmResources) (steps : List Step)
    (a : cmAllocations) (h : atMostOneGroup a) :
    (∀ n, pairsWithNode (runSteps env r steps a) n ≤ 1) ∧
    (∀ a' p m, m ∈ getFreeNodesInProfile r a' p → m ∉ allocatedNames a') := by
  constructor
  · exact ledgerInv_runSteps steps a (ledgerInv_of_atMostOneGroup h)
  · intro a' p m hm
    exact mem_freeNodes_not_allocated hm

/-- Witness for C1 at a concrete ledger and step sequence. -/
theorem no_double_allocation_witness :
    pairsWithNode (runSteps envAllOk rTwoP stepsW aOther) "n0" ≤ 1 :=
  (no_double_allocation envAllOk rTwoP stepsW aOther (by decide)).1 "n0"

/-! ### C2 -/

/-- C2 counterexample: with a catalog of two P nodes and an empty ledger,
the feasibility check accepts two groups of profile P with sizes 2 and 1:
it reports success although the sum of the requested sizes (3) exceeds the
count of catalog nodes with profile P (2).  Each group is checked against
the same snapshot free list, so groups sharing a profile are not summed. -/
theorem feasibility_sum_counterexample :
    createNodePool rTwoP ⟨[]⟩ npSum = Except.ok () ∧
    Int.ofNat ((rTwoP.nodes.filter (fun q => q.2.hwProfile == "P")).length)
      < ((npSum.nodeGroup.map (fun g => g.size)).sum) := by
  constructor
  · rfl
  · decide

/-- Per-group content of a successful feasibility loop. -/
theorem checkGroups_per_group (r : cmResources) (a : cmAllocations) :
    ∀ gs : List NodeGroup, checkGroups r a gs = Except.ok () →
    ∀ g ∈ gs, g.size ≤ Int.ofNat (getFreeNodesInProfile r a g.hwProfile).length := by
  intro gs
  induction gs with
  | nil => intro _ g hg; simp at hg
  | cons g0 rest ih =>
    intro h g hg
    rw [checkGroups] at h
    split at h
    · exact absurd h (by simp)
    · rcases List.mem_cons.mp hg with rfl | hg'
      · rename_i hlt
        exact Int.not_lt.mp hlt
      · exact ih h g hg'

/-- C2 amended: feasibility-check success guarantees, per group, that the
group's size does not exceed the number of free nodes of its profile in
the snapshot; the guarantee is per group against the same snapshot, so it
does not bound the sum over several groups sharing one profile. -/
theorem feasibility_per_group (r : cmResources) (a : cmAllocations)
    (np : NodePoolSpec) (h : createNodePool r a np = Except.ok ()) :
    ∀ g ∈ np.nodeGroup,
      g.size ≤ Int.ofNat (getFreeNodesInProfile r a g.hwProfile).length :=
  checkGroups_per_group r a np.nodeGroup h

/-- Witness for C2 amended at a concrete catalog and request. -/
theorem feasibility_per_group_witness :
    (⟨"g", "P", 1⟩ : NodeGroup).size
      ≤ Int.ofNat (getFreeNodesInProfile rTwoP ⟨[]⟩ "P").length :=
  feasibility_per_group rTwoP ⟨[]⟩ npOneG (by rfl) ⟨"g", "P", 1⟩ (by decide)

/-! ### C3 -/

/-- C3 counterexample: `catA.nodes` and `catB.nodes` are permutations of
each other — two presentation orders of the same catalog map — yet
`getFreeNodesInProfile` returns differently ordered results, the head pick
on the second presentation is nodeB although the lexicographically smaller
nodeA is also free, and `AllocateNode` on that presentation allocates
nodeB.  Selection therefore depends on the Go map iteration order and uses
no lexicographic tie-break. -/
theorem selection_order_counterexample :
    List.Perm catA.nodes catB.nodes ∧
    getFreeNodesInProfile catA ⟨[]⟩ "P" ≠ getFreeNodesInProfile catB ⟨[]⟩ "P" ∧
    (getFreeNodesInProfile catB ⟨[]⟩ "P").head? = some "nodeB" ∧
    "nodeA" ∈ getFreeNodesInProfile catB ⟨[]⟩ "P" ∧
    "nodeA" < "nodeB" ∧
    allocPersisted envAllOk catB npC1 ⟨[]⟩ = ⟨[⟨"c", [("g", ["nodeB"])]⟩]⟩ := by
  refine ⟨?_, by decide, by rfl, by decide, ?_, by rfl⟩
  · decide
  · rw [String.lt_iff_toList_lt]
    decide

/-- C3 amended: `getFreeNodesInProfile` is a pure function of the catalog's
presented entry order and the ledger: it returns exactly the catalog
entries of the profile whose names are not allocated, in presentation
order (and `AllocateNode` takes the head of this list).  Since the
presentation order stands for Go's unspecified map iteration order,
repeated runs agree only when the presentations agree. -/
theorem freeNodes_presentation_order (r : cmResources) (a : cmAllocations)
    (p : String) :
    getFreeNodesInProfile r a p
      = (r.nodes.filter (fun q =>
          q.2.hwProfile == p && !((allocatedNames a).contains q.1))).map Prod.fst := by
  rw [getFreeNodesInProfile]
  induction r.nodes with
  | nil => rfl
  | cons q rest ih =>
    obtain ⟨name, info⟩ := q
    rw [freeScan]
    cases hp : (info.hwProfile == p) with
    | false =>
      have hne : (info.hwProfile != p) = true := by simp [bne, hp]
      rw [if_pos hne, List.filter_cons]
      simp only [hp, Bool.false_and, if_false, Bool.false_eq_true]
      exact ih
    | true =>
      have hne : (info.hwProfile != p) = false := by simp [bne, hp]
      rw [if_neg (by simp [hne]), List.filter_cons]
      cases hc : ((allocatedNames a).contains name) with
      | true =>
        rw [if_pos (by simp [hc])]
        simp only [hp, hc, Bool.not_true, Bool.and_false, Bool.false_eq_true,
          if_false]
        exact ih
      | false =>
        rw [if_neg (by simp [hc])]
        simp only [hp, hc, Bool.not_false, Bool.and_true, if_true,
          List.map_cons]
        rw [ih]

/-! ### C4 -/

theorem flatGroups_setGroup_length (gname m : String) :
    ∀ ngs : List (String × List String),
    (flatGroups (setGroup ngs gname (lookupGroup ngs gname ++ [m]))).length
      = (flatGroups ngs).length + 1 := by
  intro ngs
  induction ngs with
  | nil => simp [setGroup, lookupGroup, List.find?, flatGroups]
  | cons g rest ih =>
    obtain ⟨k, l⟩ := g
    cases hk : (k == gname) with
    | true =>
      have hk' : k = gname := by simpa using hk
      rw [hk']
      have hlook : lookupGroup ((gname, l) :: rest) gname = l := by
        simp [lookupGroup, List.find?]
      rw [hlook]
      have hset : setGroup ((gname, l) :: rest) gname (l ++ [m])
          = (gname, l ++ [m]) :: rest := by
        simp [setGroup]
      rw [hset]
      simp only [flatGroups, List.length_append, List.length_cons,
        List.length_nil]
      omega
    | false =>
      have hl : lookupGroup ((k, l) :: rest) gname = lookupGroup rest gname := by
        simp only [lookupGroup, List.find?, hk]
      simp only [setGroup, hk, Bool.false_eq_true, if_false, flatGroups,
        List.length_append, hl, ih]
      omega

theorem allocatedNamesL_update_length (cid gname m : String) :
    ∀ clouds : List cmAllocatedCloud, hasCloud clouds cid = true →
    (allocatedNamesL (updateCloudGroups clouds cid gname
      (lookupGroup (cloudGroups ⟨clouds⟩ cid) gname ++ [m]))).length
      = (allocatedNamesL clouds).length + 1 := by
  intro clouds
  induction clouds with
  | nil => intro hc; simp [hasCloud] at hc
  | cons c rest ih =>
    intro hc
    cases hcc : (c.cloudID == cid) with
    | true =>
      rw [cloudGroups_cons_match hcc]
      simp only [updateCloudGroups, hcc, if_true, allocatedNamesL,
        List.length_append, flatGroups_setGroup_length]
      omega
    | false =>
      have hc' : hasCloud rest cid = true := by
        simp only [hasCloud, List.any_cons, hcc, Bool.false_or] at hc ⊢
        exact hc
      rw [cloudGroups_cons_nomatch hcc]
      simp only [updateCloudGroups, hcc, Bool.false_eq_true, if_false,
        allocatedNamesL, List.length_append, ih hc']
      omega

theorem allocGroups_shape (env : Env) (r : cmResources) (cid : String) :
    ∀ (groups : List NodeGroup) (mem : cmAllocations),
    hasCloud mem.clouds cid = true →
    (allocateNodeGroups env r cid groups mem).attempts ≤ groups.length ∧
    (allocateNodeGroups env r cid groups mem).writes.length
      ≤ (allocateNodeGroups env r cid groups mem).attempts ∧
    List.Chain' (fun x y => (allocatedNames y).length = (allocatedNames x).length + 1)
      (mem :: (allocateNodeGroups env r cid groups mem).writes) := by
  intro groups
  induction groups with
  | nil =>
    intro mem _
    exact ⟨Nat.le_refl 0, Nat.le_refl 0, List.chain'_singleton mem⟩
  | cons g rest ih =>
    intro mem hc
    simp only [allocateNodeGroups]
    split
    · obtain ⟨h1, h2, h3⟩ := ih mem hc
      exact ⟨Nat.le_succ_of_le h1, h2, h3⟩
    · split
      · exact ⟨Nat.zero_le _, Nat.le_refl 0, List.chain'_singleton mem⟩
      · split
        · exact ⟨Nat.zero_le _, Nat.le_refl 0, List.chain'_singleton mem⟩
        · rename_i nodename tail hfree
          split
          · exact ⟨Nat.zero_le _, Nat.le_refl 0, List.chain'_singleton mem⟩
          · split
            · exact ⟨Nat.zero_le _, Nat.le_refl 0, List.chain'_singleton mem⟩
            · have hstep : (allocatedNames ⟨updateCloudGroups mem.clouds cid g.name
                  (lookupGroup (cloudGroups mem cid) g.name ++ [nodename])⟩).length
                  = (allocatedNames mem).length + 1 :=
                allocatedNamesL_update_length cid g.name nodename mem.clouds hc
              have hc' : hasCloud (updateCloudGroups mem.clouds cid g.name
                  (lookupGroup (cloudGroups mem cid) g.name ++ [nodename])) cid = true := by
                rw [hasCloud_update cid mem.clouds]
                exact hc
              split
              · refine ⟨?_, Nat.zero_le 1, List.chain'_singleton mem⟩
                simp
              · split
                · refine ⟨by simp, Nat.le_refl 1, ?_⟩
                  exact List.chain'_pair.mpr hstep
                · split
                  · refine ⟨by simp, Nat.le_refl 1, ?_⟩
                    exact List.chain'_pair.mpr hstep
                  · obtain ⟨h1, h2, h3⟩ := ih _ hc'
                    refine ⟨by simpa using Nat.add_le_add_right h1 1, ?_, ?_⟩
                    · simpa using Nat.add_le_add_right h2 1
                    · rw [List.chain'_cons]
                      exact ⟨hstep, h3⟩

/-- C4 counterexample: one `AllocateNode` invocation on a request with two
under-allocated nodegroups appends two node names to the ledger and
performs two configmap writes within that single invocation. -/
theorem one_write_per_invocation_counterexample :
    (allocateNode envAllOk rPQ npPQ ⟨[]⟩).writes.length = 2 ∧
    (allocateNode envAllOk rPQ npPQ ⟨[]⟩).attempts = 2 ∧
    (allocatedNames (allocPersisted envAllOk rPQ npPQ ⟨[]⟩)).length = 2 :=
  ⟨rfl, rfl, rfl⟩

/-- C4 amended: `AllocateNode` performs at most one configmap write attempt
per nodegroup (so at most the number of spec nodegroups per invocation,
not at most one per invocation), and each successful write records exactly
one more allocated node name than the previously persisted ledger. -/
theorem one_write_per_group (env : Env) (r : cmResources) (np : NodePoolSpec)
    (a : cmAllocations) :
    (allocateNode env r np a).attempts ≤ np.nodeGroup.length ∧
    (allocateNode env r np a).writes.length ≤ (allocateNode env r np a).attempts ∧
    List.Chain' (fun x y => (allocatedNames y).length = (allocatedNames x).length + 1)
      (a :: (allocateNode env r np a).writes) := by
  obtain ⟨h1, h2, h3⟩ := allocGroups_shape env r np.cloudID np.nodeGroup
    (ensureCloud a np.cloudID) (hasCloud_ensure a np.cloudID)
  refine ⟨h1, h2, ?_⟩
  cases hw : (allocateNode env r np a).writes with
  | nil => exact List.chain'_singleton a
  | cons w ws =>
    rw [show (allocateNode env r np a).writes
        = (allocateNodeGroups env r np.cloudID np.nodeGroup
            (ensureCloud a np.cloudID)).writes from rfl] at hw
    rw [hw] at h3
    rw [List.chain'_cons] at h3 ⊢
    refine ⟨?_, h3.2⟩
    rw [← allocatedNames_ensure a np.cloudID]
    exact h3.1

/-! ### C5 -/

theorem allocGroups_conflict (env : Env) (r : cmResources) (cid : String)
    (h : ∀ x, env (ExtOp.updateConfigMap x) = false) :
    ∀ (groups : List NodeGroup) (mem : cmAllocations),
    (allocateNodeGroups env r cid groups mem).writes = [] ∧
    ((allocateNodeGroups env r cid groups mem).attempts ≠ 0 →
      ∃ s, (allocateNodeGroups env r cid groups mem).res = Except.error s) := by
  intro groups
  induction groups with
  | nil => intro mem; exact ⟨rfl, fun h0 => absurd rfl h0⟩
  | cons g rest ih =>
    intro mem
    simp only [allocateNodeGroups]
    split
    · exact ih mem
    · split
      · exact ⟨rfl, fun _ => ⟨_, rfl⟩⟩
      · split
        · exact ⟨rfl, fun _ => ⟨_, rfl⟩⟩
        · split
          · exact ⟨rfl, fun _ => ⟨_, rfl⟩⟩
          · split
            · exact ⟨rfl, fun _ => ⟨_, rfl⟩⟩
            · split
              · exact ⟨rfl, fun _ => ⟨_, rfl⟩⟩
              · rename_i hupd
                exact absurd (h _) hupd

/-- C5 counterexample: when the configmap write fails (as a version
conflict does), `AllocateNode` returns the failure to its caller as an
error instead of retrying the read-modify-write cycle internally. -/
theorem conflict_surfaced_counterexample :
    (allocateNode envConflict rTwoP npMaster2 ⟨[]⟩).res
      = Except.error "failed to update configmap" ∧
    (allocateNode envConflict rTwoP npMaster2 ⟨[]⟩).attempts = 1 :=
  ⟨rfl, rfl⟩

/-- C5 amended: a failing configmap update is never retried inside
`AllocateNode`: under an environment in which updates keep failing, the
invocation persists nothing, and whenever it attempted a write at all it
returns an error to its caller (the retry happens only through the
controller requeueing the reconciliation). -/
theorem conflict_not_retried (env : Env) (r : cmResources) (np : NodePoolSpec)
    (a : cmAllocations) (h : ∀ x, env (ExtOp.updateConfigMap x) = false) :
    (allocateNode env r np a).writes = [] ∧
    ((allocateNode env r np a).attempts ≠ 0 →
      ∃ s, (allocateNode env r np a).res = Except.error s) :=
  allocGroups_conflict env r np.cloudID h np.nodeGroup (ensureCloud a np.cloudID)

/-- Witness for C5 amended under the always-conflicting environment. -/
theorem conflict_not_retried_witness :
    (allocateNode envConflict rTwoP npMaster2 ⟨[]⟩).writes = [] :=
  (conflict_not_retried envConflict rTwoP npMaster2 ⟨[]⟩ (fun _ => rfl)).1

/-! ### C6 -/

theorem findCloud_eq_none {clouds : List cmAllocatedCloud} {cid : String}
    (h : hasCloud clouds cid = false) : findCloud clouds cid = none := by
  induction clouds with
  | nil => rfl
  | cons c rest ih =>
    simp only [hasCloud, List.any_cons, Bool.or_eq_false_iff] at h
    simp only [findCloud, List.find?, h.1]
    exact ih h.2

theorem findCloud_append_last {clouds : List cmAllocatedCloud} {cid : String}
    {e : cmAllocatedCloud} (h : hasCloud clouds cid = false)
    (he : (e.cloudID == cid) = true) :
    findCloud (clouds ++ [e]) cid = some e := by
  induction clouds with
  | nil => simp [findCloud, List.find?, he]
  | cons c rest ih =>
    simp only [hasCloud, List.any_cons, Bool.or_eq_false_iff] at h
    simp only [List.cons_append, findCloud, List.find?, h.1]
    exact ih h.2

theorem cloudGroups_ensure (a : cmAllocations) (cid : String) :
    cloudGroups (ensureCloud a cid) cid = cloudGroups a cid := by
  unfold ensureCloud
  split
  · rfl
  · rename_i hnc
    have hnc' : hasCloud a.clouds cid = false := by
      rw [Bool.eq_false_iff]
      exact hnc
    have h1 : findCloud (a.clouds ++ [⟨cid, []⟩]) cid = some ⟨cid, []⟩ :=
      findCloud_append_last hnc' (by simp)
    rw [show cloudGroups ⟨a.clouds ++ [⟨cid, []⟩]⟩ cid
        = match findCloud (a.clouds ++ [⟨cid, []⟩]) cid with
          | some c => c.nodegroups
          | none => [] from rfl, h1]
    rw [show cloudGroups a cid = match findCloud a.clouds cid with
          | some c => c.nodegroups
          | none => [] from rfl, findCloud_eq_none hnc']

theorem allocGroups_full_noop (env : Env) (r : cmResources) (cid : String) :
    ∀ (groups : List NodeGroup) (mem : cmAllocations),
    (∀ g ∈ groups,
      g.size ≤ Int.ofNat (lookupGroup (cloudGroups mem cid) g.name).length) →
    allocateNodeGroups env r cid groups mem = ⟨Except.ok (), [], 0⟩ := by
  intro groups
  induction groups with
  | nil => intro mem _; rfl
  | cons g rest ih =>
    intro mem h
    have hg := h g (List.mem_cons_self g rest)
    simp only [Int.ofNat_eq_natCast] at hg
    simp only [allocateNodeGroups]
    rw [if_pos (by omega)]
    exact ih mem (fun g' hg' => h g' (List.mem_cons_of_mem g hg'))

/-- C6: when every nodegroup of the request is already at (or above) its
requested size in the ledger, `AllocateNode` is a no-op: it returns
success, performs no configmap write, and the persisted allocation section
is exactly the original one — so repeated reconciliation passes never
over-allocate a fully allocated group. -/
theorem idempotent_when_full (env : Env) (r : cmResources) (np : NodePoolSpec)
    (a : cmAllocations)
    (h : ∀ g ∈ np.nodeGroup,
      g.size ≤ Int.ofNat (lookupGroup (cloudGroups a np.cloudID) g.name).length) :
    (allocateNode env r np a).res = Except.ok () ∧
    (allocateNode env r np a).writes = [] ∧
    allocPersisted env r np a = a := by
  have h' : ∀ g ∈ np.nodeGroup,
      g.size ≤ Int.ofNat (lookupGroup
        (cloudGroups (ensureCloud a np.cloudID) np.cloudID) g.name).length := by
    rw [cloudGroups_ensure]
    exact h
  have hres := allocGroups_full_noop env r np.cloudID np.nodeGroup
    (ensureCloud a np.cloudID) h'
  refine ⟨?_, ?_, ?_⟩
  · rw [allocateNode, hres]
  · rw [allocateNode, hres]
  · rw [allocPersisted, allocateNode, hres]
    rfl

/-- Witness for C6 on a fully allocated concrete ledger. -/
theorem idempotent_when_full_witness :
    allocPersisted envAllOk rTwoP npMaster2 ⟨[⟨"cloud1", [("master", ["n0", "n1"])]⟩]⟩
      = ⟨[⟨"cloud1", [("master", ["n0", "n1"])]⟩]⟩ :=
  (idempotent_when_full envAllOk rTwoP npMaster2
    ⟨[⟨"cloud1", [("master", ["n0", "n1"])]⟩]⟩ (by decide)).2.2

/-! ### C7 -/

/-- C7 counterexample: a group of size 2 over a catalog holding exactly one
free P node makes `AllocateNode` fail with the insufficient-resources
error even though a free node with that profile exists: the guard compares
the whole remaining count against the free list, not emptiness. -/
theorem insufficient_despite_free_counterexample :
    (allocateNode envAllOk rOneP npMaster2 ⟨[]⟩).res
      = Except.error "not enough free resources remaining in group P" ∧
    getFreeNodesInProfile rOneP ⟨[]⟩ "P" = ["n0"] :=
  ⟨rfl, rfl⟩

/-- C7 amended: for a single under-allocated group, `AllocateNode` fails
with the insufficient-resources error exactly when the free node count of
the profile is smaller than the group's remaining requested count (which
can exceed one, so free nodes may exist and it still fails); when the free
count covers the remainder it allocates one node instead. -/
theorem insufficient_iff_shortage (r : cmResources) (a : cmAllocations)
    (cid gname prof : String) (size : Int)
    (hrem : 0 < size - Int.ofNat (lookupGroup (cloudGroups a cid) gname).length) :
    if Int.ofNat (getFreeNodesInProfile r (ensureCloud a cid) prof).length
        < size - Int.ofNat (lookupGroup (cloudGroups a cid) gname).length then
      (allocateNode envAllOk r ⟨cid, [⟨gname, prof, size⟩]⟩ a).res
          = Except.error ("not enough free resources remaining in group " ++ prof) ∧
      (allocateNode envAllOk r ⟨cid, [⟨gname, prof, size⟩]⟩ a).writes = []
    else
      (allocateNode envAllOk r ⟨cid, [⟨gname, prof, size⟩]⟩ a).res = Except.ok () ∧
      (allocateNode envAllOk r ⟨cid, [⟨gname, prof, size⟩]⟩ a).writes.length = 1 := by
  have hcg := cloudGroups_ensure a cid
  simp only [Int.ofNat_eq_natCast] at hrem
  rw [allocateNode]
  simp only [allocateNodeGroups, hcg, Int.ofNat_eq_natCast]
  rw [if_neg (show ¬(size - ((lookupGroup (cloudGroups a cid) gname).length : Int) ≤ 0)
    from by omega)]
  by_cases hsh : ((getFreeNodesInProfile r (ensureCloud a cid) prof).length : Int)
      < size - ((lookupGroup (cloudGroups a cid) gname).length : Int)
  · rw [if_pos hsh, if_pos hsh]
    exact ⟨rfl, rfl⟩
  · rw [if_neg hsh, if_neg hsh]
    cases hfree : getFreeNodesInProfile r (ensureCloud a cid) prof with
    | nil =>
      rw [hfree] at hsh
      simp only [List.length_nil, Nat.cast_zero] at hsh
      exfalso
      omega
    | cons m tail =>
      have hm : m ∈ getFreeNodesInProfile r (ensureCloud a cid) prof := by
        rw [hfree]
        exact List.mem_cons_self _ _
      obtain ⟨info, hinfo⟩ := Option.isSome_iff_exists.mp (freeScan_lookup hm)
      dsimp only
      rw [hinfo]
      dsimp only
      rw [if_neg (by simp [envAllOk]), if_neg (by simp [envAllOk]),
        if_neg (by simp [envAllOk]), if_neg (by simp [envAllOk])]
      exact ⟨rfl, rfl⟩

/-- Witness for C7 amended on a concrete shortage-free instance. -/
theorem insufficient_iff_shortage_witness :
    if Int.ofNat (getFreeNodesInProfile rTwoP (ensureCloud ⟨[]⟩ "cloud1") "P").length
        < (1 : Int) - Int.ofNat (lookupGroup (cloudGroups ⟨[]⟩ "cloud1") "g").length then
      (allocateNode envAllOk rTwoP ⟨"cloud1", [⟨"g", "P", 1⟩]⟩ ⟨[]⟩).res
          = Except.error ("not enough free resources remaining in group " ++ "P") ∧
      (allocateNode envAllOk rTwoP ⟨"cloud1", [⟨"g", "P", 1⟩]⟩ ⟨[]⟩).writes = []
    else
      (allocateNode envAllOk rTwoP ⟨"cloud1", [⟨"g", "P", 1⟩]⟩ ⟨[]⟩).res = Except.ok () ∧
      (allocateNode envAllOk rTwoP ⟨"cloud1", [⟨"g", "P", 1⟩]⟩ ⟨[]⟩).writes.length = 1 :=
  insufficient_iff_shortage rTwoP ⟨[]⟩ "cloud1" "g" "P" 1 (by decide)

/-! ### C8 -/

theorem findStatusCondition_set (t reason status msg : String) :
    ∀ conds : List Condition,
    findStatusCondition (setStatusCondition conds t reason status msg) t
      = some ⟨t, status, reason, msg⟩ := by
  intro conds
  induction conds with
  | nil => simp [setStatusCondition, findStatusCondition, List.find?]
  | cons c rest ih =>
    cases hc : (c.ctype == t) with
    | true =>
      simp [setStatusCondition, hc, findStatusCondition, List.find?]
    | false =>
      simp only [setStatusCondition, hc, Bool.false_eq_true, if_false,
        findStatusCondition, List.find?]
      exact ih

/-- C8 counterexample: a NodePool whose status carries a condition of some
other type but no Provisioned condition is classified Noop, not Create:
`determineAction` returns Create only when the condition list is empty. -/
theorem create_action_counterexample :
    determineAction [⟨"SomethingElse", "False", "X", "m"⟩]
      = NodePoolFSMAction.noop ∧
    findStatusCondition [⟨"SomethingElse", "False", "X", "m"⟩] "Provisioned"
      = none ∧
    NodePoolFSMAction.noop ≠ NodePoolFSMAction.create := by
  refine ⟨rfl, rfl, by decide⟩

/-- C8 amended: the Create action is taken exactly when the status has no
conditions at all; a non-empty status without a Provisioned condition is
classified Noop.  On Create, the feasibility check runs: on success the
Provisioned condition is set to reason InProgress (status False), on
failure to reason Failed carrying the error message, and neither path
requeues. -/
theorem create_state_machine (conds : List Condition) (r : cmResources)
    (a : cmAllocations) (np : NodePoolSpec) :
    (conds = [] → determineAction conds = NodePoolFSMAction.create) ∧
    (findStatusCondition conds "Provisioned" = none → conds ≠ [] →
      determineAction conds = NodePoolFSMAction.noop) ∧
    (createNodePool r a np = Except.ok () →
      (handleNodePoolCreate r a np conds).2 = false ∧
      findStatusCondition (handleNodePoolCreate r a np conds).1 "Provisioned"
        = some ⟨"Provisioned", "False", "InProgress", "Handling creation"⟩) ∧
    (∀ e, createNodePool r a np = Except.error e →
      (handleNodePoolCreate r a np conds).2 = false ∧
      findStatusCondition (handleNodePoolCreate r a np conds).1 "Provisioned"
        = some ⟨"Provisioned", "False", "Failed", "Creation request failed: " ++ e⟩) := by
  refine ⟨?_, ?_, ?_, ?_⟩
  · intro h
    subst h
    rfl
  · intro hfind hne
    rw [determineAction, if_neg (by simpa using hne), hfind]
  · intro hok
    rw [handleNodePoolCreate, hok]
    exact ⟨rfl, findStatusCondition_set _ _ _ _ conds⟩
  · intro e herr
    rw [handleNodePoolCreate, herr]
    exact ⟨rfl, findStatusCondition_set _ _ _ _ conds⟩

/-- Witness for C8 amended: the empty status is classified Create. -/
theorem create_state_machine_witness :
    determineAction [] = NodePoolFSMAction.create :=
  (create_state_machine [] rTwoP ⟨[]⟩ npOneG).1 rfl

/-! ### C9 -/

/-- The clouds list extends `L0` by exactly one trailing entry for `cid`. -/
def ExtOne (L0 : List cmAllocatedCloud) (cid : String)
    (clouds : List cmAllocatedCloud) : Prop :=
  ∃ e : cmAllocatedCloud, e.cloudID = cid ∧ clouds = L0 ++ [e]

/-- The ledger is `L0` itself or `L0` plus one trailing entry for `cid`:
the shapes reachable from `⟨L0⟩` by allocations for `cid` alone. -/
def CleanExt (L0 : List cmAllocatedCloud) (cid : String) (a : cmAllocations) : Prop :=
  a.clouds = L0 ∨ ExtOne L0 cid a.clouds

theorem hasCloud_append_last {L0 : List cmAllocatedCloud} {cid : String}
    {e : cmAllocatedCloud} (he : e.cloudID = cid) :
    hasCloud (L0 ++ [e]) cid = true := by
  simp [hasCloud, List.any_append, he]

theorem updateCloudGroups_append_last {L0 : List cmAllocatedCloud} {cid : String}
    {e : cmAllocatedCloud} (hL0 : hasCloud L0 cid = false) (he : e.cloudID = cid)
    (gname : String) (v : List String) :
    updateCloudGroups (L0 ++ [e]) cid gname v
      = L0 ++ [⟨cid, setGroup e.nodegroups gname v⟩] := by
  induction L0 with
  | nil =>
    simp only [List.nil_append, updateCloudGroups, he, beq_self_eq_true, if_true]
  | cons c rest ih =>
    simp only [hasCloud, List.any_cons, Bool.or_eq_false_iff] at hL0
    simp only [List.cons_append, updateCloudGroups, hL0.1, Bool.false_eq_true,
      if_false]
    exact congrArg (c :: .) (ih hL0.2)

theorem eraseFirstCloud_no_match {cid : String} :
    ∀ L0 : List cmAllocatedCloud, hasCloud L0 cid = false →
    eraseFirstCloud L0 cid = L0 := by
  intro L0
  induction L0 with
  | nil => intro _; rfl
  | cons c rest ih =>
    intro h
    simp only [hasCloud, List.any_cons, Bool.or_eq_false_iff] at h
    simp only [eraseFirstCloud, h.1, Bool.false_eq_true, if_false]
    rw [ih h.2]

theorem eraseFirstCloud_append_last {L0 : List cmAllocatedCloud} {cid : String}
    {e : cmAllocatedCloud} (hL0 : hasCloud L0 cid = false) (he : e.cloudID = cid) :
    eraseFirstCloud (L0 ++ [e]) cid = L0 := by
  induction L0 with
  | nil => simp [eraseFirstCloud, he]
  | cons c rest ih =>
    simp only [hasCloud, List.any_cons, Bool.or_eq_false_iff] at hL0
    simp only [List.cons_append, eraseFirstCloud, hL0.1, Bool.false_eq_true,
      if_false]
    exact congrArg (c :: .) (ih hL0.2)

theorem ensure_cleanExt {L0 : List cmAllocatedCloud} {cid : String}
    {a : cmAllocations} (hL0 : hasCloud L0 cid = false)
    (h : CleanExt L0 cid a) : ExtOne L0 cid (ensureCloud a cid).clouds := by
  rcases h with h | ⟨e, he, hcl⟩
  · rw [ensureCloud, h, if_neg (by rw [hL0]; exact Bool.false_ne_true)]
    exact ⟨⟨cid, []⟩, rfl, rfl⟩
  · rw [ensureCloud, hcl, if_pos (hasCloud_append_last he)]
    exact ⟨e, he, hcl⟩

theorem allocGroups_writes_ext (env : Env) (r : cmResources)
    {L0 : List cmAllocatedCloud} {cid : String} (hL0 : hasCloud L0 cid = false) :
    ∀ (groups : List NodeGroup) (mem : cmAllocations), ExtOne L0 cid mem.clouds →
    ∀ w ∈ (allocateNodeGroups env r cid groups mem).writes, ExtOne L0 cid w.clouds := by
  intro groups
  induction groups with
  | nil =>
    intro mem _ w hw
    simp [allocateNodeGroups] at hw
  | cons g rest ih =>
    intro mem hext w hw
    obtain ⟨e, he, hcl⟩ := hext
    simp only [allocateNodeGroups] at hw
    split at hw
    · exact ih mem ⟨e, he, hcl⟩ w hw
    · split at hw
      · simp at hw
      · split at hw
        · simp at hw
        · rename_i nodename tail hfree
          split at hw
          · simp at hw
          · split at hw
            · simp at hw
            · have hext' : ExtOne L0 cid (updateCloudGroups mem.clouds cid g.name
                  (lookupGroup (cloudGroups mem cid) g.name ++ [nodename])) := by
                rw [hcl, updateCloudGroups_append_last hL0 he]
                exact ⟨⟨cid, setGroup e.nodegroups g.name
                  (lookupGroup (cloudGroups mem cid) g.name ++ [nodename])⟩, rfl, rfl⟩
              split at hw
              · simp at hw
              · split at hw
                · rcases List.mem_singleton.mp hw with rfl
                  exact hext'
                · split at hw
                  · rcases List.mem_singleton.mp hw with rfl
                    exact hext'
                  · rcases List.mem_cons.mp hw with rfl | hw'
                    · exact hext'
                    · exact ih _ hext' w hw'

theorem cleanExt_allocPersisted {env : Env} {r : cmResources}
    {L0 : List cmAllocatedCloud} {cid : String} {np : NodePoolSpec}
    {a : cmAllocations} (hL0 : hasCloud L0 cid = false) (hcid : np.cloudID = cid)
    (h : CleanExt L0 cid a) : CleanExt L0 cid (allocPersisted env r np a) := by
  have hmem : (allocateNode env r np a).writes.getLastD a
      ∈ a :: (allocateNode env r np a).writes :=
    List.getLastD_mem_cons _ _
  rcases List.mem_cons.mp hmem with he | hw
  · rw [allocPersisted, he]
    exact h
  · right
    rw [allocPersisted]
    subst hcid
    refine allocGroups_writes_ext env r hL0 np.nodeGroup
      (ensureCloud a np.cloudID) (ensure_cleanExt hL0 h) _ ?_
    exact hw

theorem cleanExt_runAllocs (env : Env) (r : cmResources)
    {L0 : List cmAllocatedCloud} {cid : String} (hL0 : hasCloud L0 cid = false) :
    ∀ nps : List NodePoolSpec, (∀ np ∈ nps, np.cloudID = cid) →
    ∀ a : cmAllocations, CleanExt L0 cid a →
    CleanExt L0 cid (runAllocs env r nps a) := by
  intro nps
  induction nps with
  | nil => intro _ a h; exact h
  | cons np rest ih =>
    intro hnps a h
    exact ih (fun np2 h2 => hnps np2 (List.mem_cons_of_mem np h2)) _
      (cleanExt_allocPersisted hL0 (hnps np (List.mem_cons_self np rest)) h)

theorem release_restores (env2 : Env) {L0 : List cmAllocatedCloud} {cid : String}
    (hL0 : hasCloud L0 cid = false) {L1 : cmAllocations}
    (h : CleanExt L0 cid L1)
    (hok : (releaseNodePool env2 cid L1).res = Except.ok ()) :
    (releaseNodePool env2 cid L1).persisted = ⟨L0⟩ := by
  rcases h with h | ⟨e, he, hcl⟩
  · rw [releaseNodePool, h, findCloud_eq_none hL0]
    rw [show L1 = (⟨L1.clouds⟩ : cmAllocations) from rfl, h]
  · have hfc : findCloud L1.clouds cid = some e := by
      rw [hcl]
      exact findCloud_append_last hL0 (by simp [he])
    rw [releaseNodePool, hfc] at hok ⊢
    dsimp only at hok ⊢
    cases hd : deleteGroupsNodes env2 e.nodegroups with
    | error e2 =>
      rw [hd] at hok
      exact Except.noConfusion hok
    | ok u =>
      rw [hd] at hok
      dsimp only at hok ⊢
      cases hupd : env2 (ExtOp.updateConfigMap ⟨eraseFirstCloud L1.clouds cid⟩) with
      | false =>
        rw [if_pos hupd] at hok
        exact Except.noConfusion hok
      | true =>
        rw [if_neg (by simp [hupd])]
        rw [hcl, eraseFirstCloud_append_last hL0 (by simp [he])]

/-- C9: starting from a ledger without an entry for the cloudID, after any
sequence of `AllocateNode` invocations for that cloudID (under any
environment, including partial failures), a `ReleaseNodePool` that returns
success removes the CloudAllocation entry entirely and restores the ledger
— hence `getFreeNodesInProfile` on every profile — to the pre-allocation
state; and releasing a cloudID with no ledger entry is a no-op success,
not an error. -/
theorem release_reverses_allocation (env env2 : Env) (r : cmResources)
    (nps : List NodePoolSpec) (L0 : List cmAllocatedCloud) (cid : String)
    (hL0 : hasCloud L0 cid = false) (hnps : ∀ np ∈ nps, np.cloudID = cid) :
    ((releaseNodePool env2 cid (runAllocs env r nps ⟨L0⟩)).res = Except.ok () →
      (releaseNodePool env2 cid (runAllocs env r nps ⟨L0⟩)).persisted = ⟨L0⟩ ∧
      ∀ p, getFreeNodesInProfile r
          (releaseNodePool env2 cid (runAllocs env r nps ⟨L0⟩)).persisted p
        = getFreeNodesInProfile r ⟨L0⟩ p) ∧
    (∀ a : cmAllocations, findCloud a.clouds cid = none →
      releaseNodePool env2 cid a = ⟨Except.ok (), a⟩) := by
  constructor
  · intro hok
    have h1 := release_restores env2 hL0
      (cleanExt_runAllocs env r hL0 nps hnps ⟨L0⟩ (Or.inl rfl)) hok
    refine ⟨h1, fun p => ?_⟩
    rw [h1]
  · intro a hfc
    rw [releaseNodePool, hfc]

/-- Witness for C9 on a concrete two-profile allocation and release. -/
theorem release_reverses_allocation_witness :
    (releaseNodePool envAllOk "c"
        (runAllocs envAllOk rPQ [npPQ] ⟨[⟨"other", [("g", ["x"])]⟩]⟩)).persisted
      = ⟨[⟨"other", [("g", ["x"])]⟩]⟩ :=
  ((release_reverses_allocation envAllOk envAllOk rPQ [npPQ]
      [⟨"other", [("g", ["x"])]⟩] "c" (by decide) (by decide)).1 (by rfl)).1

/-! ### C10 -/

theorem mem_gatherAllocated {ngs : List (String × List String)} {n : String} :
    ∀ groups : List NodeGroup, n ∈ gatherAllocated ngs groups →
    ∃ g ∈ groups, n ∈ lookupGroup ngs g.name := by
  intro groups
  induction groups with
  | nil => intro h; simp [gatherAllocated] at h
  | cons g rest ih =>
    intro h
    rcases List.mem_append.mp h with h1 | h1
    · exact ⟨g, List.mem_cons_self g rest, h1⟩
    · obtain ⟨g2, hg2, hn⟩ := ih h1
      exact ⟨g2, List.mem_cons_of_mem g hg2, hn⟩

/-- C10: `GetAllocatedNodes` returns the empty list (with no error in the
code, the only failure sources being the configmap read modelled away as
the pure inputs) when the cloudID has no ledger entry; when an entry
exists the result is sorted ascending and contains only names recorded in
the entry under the request's own spec node groups. -/
theorem getAllocatedNodes_spec (a : cmAllocations) (np : NodePoolSpec) :
    (findCloud a.clouds np.cloudID = none → getAllocatedNodes a np = []) ∧
    (getAllocatedNodes a np).Sorted (fun x y : String => x ≤ y) ∧
    (∀ cloud, findCloud a.clouds np.cloudID = some cloud →
      ∀ n ∈ getAllocatedNodes a np,
        ∃ g ∈ np.nodeGroup, n ∈ lookupGroup cloud.nodegroups g.name) := by
  refine ⟨?_, ?_, ?_⟩
  · intro h
    rw [getAllocatedNodes, h]
  · rw [getAllocatedNodes]
    cases h : findCloud a.clouds np.cloudID with
    | none => exact List.sorted_nil
    | some cloud => exact List.sorted_insertionSort _ _
  · intro cloud hc n hn
    rw [getAllocatedNodes, hc] at hn
    have hperm := List.perm_insertionSort (fun x y : String => x ≤ y)
      (gatherAllocated cloud.nodegroups np.nodeGroup)
    exact mem_gatherAllocated np.nodeGroup (hperm.mem_iff.mp hn)

/-- Witness for C10 on a cloudID with no ledger entry. -/
theorem getAllocatedNodes_spec_witness :
    getAllocatedNodes ⟨[]⟩ npOneG = [] :=
  (getAllocatedNodes_spec ⟨[]⟩ npOneG).1 rfl

end HwMgr
